import Mathlib

/-!
Shallow embedding of the UTL_FILE layer of orafce (src/file.c) and proofs
about its handle table, path sandboxing, line I/O and maintenance operations.

Strings that the C code manipulates byte by byte are modelled as `List Char`;
the C `int32` counter is modelled as `Int` reduced with an explicit two's
complement wrap.  Streams (`FILE *`) are opaque and modelled as `Nat` names;
the outcome of `fclose(3)` on a stream is an explicit parameter, as are the
outcomes of `stat(2)` and `rename(2)`.
-/

namespace UtlFile

/-- The error conditions raised by src/file.c (the CUSTOM_EXCEPTION names,
the PARAMETER_ERROR / NOT_NULL macros and the distinguished ereports). -/
inductive Err where
  | InvalidOperation
  | WriteError
  | ReadError
  | InvalidFileHandle
  | InvalidMaxLinesize
  | InvalidMode
  | InvalidPath
  | ValueError
  | ProgramLimitExceeded
  | NoDataFound
  | ParameterError
  deriving DecidableEq, Repr

/-- Unix error numbers distinguished by IO_EXCEPTION in src/file.c. -/
inductive Errno where
  | eacces
  | enametoolong
  | enoent
  | enotdir
  | eother
  deriving DecidableEq, Repr

/-- IO_EXCEPTION (file.c lines 166-181): maps access / name / existence /
directory-type errnos to INVALID_PATH and everything else to
INVALID_OPERATION. -/
def io_exception (e : Errno) : Err :=
  match e with
  | .eacces => .InvalidPath
  | .enametoolong => .InvalidPath
  | .enoent => .InvalidPath
  | .enotdir => .InvalidPath
  | .eother => .InvalidOperation

/-- MAX_SLOTS (file.c line 108): Oracle 10g supports 50 files. -/
def MAX_SLOTS : Nat := 50

/-- INVALID_SLOTID (file.c line 109). -/
def INVALID_SLOTID : Int := 0

/-- MAX_LINESIZE (file.c line 93). -/
def MAX_LINESIZE : Int := 32767

/-- Two's complement wrap of the C `int32` counter. -/
def wrap32 (n : Int) : Int := (n + 2 ^ 31) % 2 ^ 32 - 2 ^ 31

/-- One entry of the static `slots` array (file.c lines 101-106). -/
structure FileSlot where
  file : Option Nat
  max_linesize : Int
  id : Int
  deriving DecidableEq, Repr

/-- A free slot, as produced by the zero initialization of the array. -/
def FileSlot.freeSlot : FileSlot := ⟨none, 0, 0⟩

/-- Clearing a slot on close (file.c lines 685-686, 720-721): the stream and
the id are reset, `max_linesize` is left as it was. -/
def clearSlot (s : FileSlot) : FileSlot := ⟨none, s.max_linesize, 0⟩

/-- The static state of the module: the `slots` array (file.c line 111) and
the `slotid` counter (file.c line 112). -/
structure UtlState where
  slots : List FileSlot
  slotid : Int
  deriving DecidableEq, Repr

/-- `slots` is initialized with zeros and `slotid = 0`. -/
def initState : UtlState := ⟨List.replicate MAX_SLOTS FileSlot.freeSlot, 0⟩

/-- The ids of the currently occupied slots (those with `id ≠ 0`). -/
def occupiedIds (slots : List FileSlot) : List Int :=
  slots.filterMap (fun s => if s.id = 0 then none else some s.id)

/-- `++slotid` with the skip of INVALID_SLOTID (file.c lines 131-133):
returns the id assigned to the slot, which finally equals the new counter. -/
def nextId (slotid : Int) : Int :=
  let s1 := wrap32 (slotid + 1)
  if s1 = INVALID_SLOTID then wrap32 (s1 + 1) else s1

/-- Scan of `get_descriptor` (file.c lines 122-141) over the slot list:
returns `none` when every slot is occupied, otherwise the assigned id, the
updated slot list and the updated counter. -/
def get_descriptor_aux (file : Nat) (max_linesize : Int) (slotid : Int) :
    List FileSlot → Option (Int × List FileSlot × Int)
  | [] => none
  | s :: rest =>
    if s.id = INVALID_SLOTID then
      let i := nextId slotid
      some (i, ⟨some file, max_linesize, i⟩ :: rest, i)
    else
      match get_descriptor_aux file max_linesize slotid rest with
      | none => none
      | some (i, rest2, sid) => some (i, s :: rest2, sid)

/-- `get_descriptor` (file.c lines 122-141): find any free slot for the
stream; on failure return INVALID_SLOTID and leave the state unchanged. -/
def get_descriptor (st : UtlState) (file : Nat) (max_linesize : Int) :
    Int × UtlState :=
  match get_descriptor_aux file max_linesize st.slotid st.slots with
  | none => (INVALID_SLOTID, st)
  | some (i, slots2, sid) => (i, ⟨slots2, sid⟩)

/-- The outcome of `fclose(3)` on one underlying stream. -/
inductive CloseRes where
  | ok
  | ebadf
  | eother
  deriving DecidableEq, Repr

/-- Scan of `utl_file_fclose` (file.c lines 668-693) over the slot list.
The first slot whose id matches is closed; a failing `fclose` raises before
the slot is cleared, so the slot is left as it was. -/
def fclose_aux (closeRes : Nat → CloseRes) (d : Int) :
    List FileSlot → Except Err Unit × List FileSlot
  | [] => (.error .InvalidFileHandle, [])
  | s :: rest =>
    if s.id = d then
      match s.file with
      | some f =>
        match closeRes f with
        | .ok => (.ok (), clearSlot s :: rest)
        | .ebadf => (.error .InvalidFileHandle, s :: rest)
        | .eother => (.error .WriteError, s :: rest)
      | none => (.ok (), clearSlot s :: rest)
    else
      match fclose_aux closeRes d rest with
      | (r, rest2) => (r, s :: rest2)

/-- `utl_file_fclose` (file.c lines 668-693). -/
def utl_file_fclose (closeRes : Nat → CloseRes) (st : UtlState) (d : Int) :
    Except Err Unit × UtlState :=
  match fclose_aux closeRes d st.slots with
  | (r, slots2) => (r, ⟨slots2, st.slotid⟩)

/-- Scan of `utl_file_fclose_all` (file.c lines 704-726) over the slot list.
A failing `fclose` raises out of the loop: the failing slot is left occupied
and the remaining slots are not visited. -/
def fclose_all_aux (closeRes : Nat → CloseRes) :
    List FileSlot → Option Err × List FileSlot
  | [] => (none, [])
  | s :: rest =>
    if s.id = INVALID_SLOTID then
      match fclose_all_aux closeRes rest with
      | (r, rest2) => (r, s :: rest2)
    else
      match s.file with
      | some f =>
        match closeRes f with
        | .ok =>
          match fclose_all_aux closeRes rest with
          | (r, rest2) => (r, clearSlot s :: rest2)
        | .ebadf => (some .InvalidFileHandle, s :: rest)
        | .eother => (some .WriteError, s :: rest)
      | none =>
        match fclose_all_aux closeRes rest with
        | (r, rest2) => (r, clearSlot s :: rest2)

/-- `utl_file_fclose_all` (file.c lines 704-726): `none` means success. -/
def fclose_all (closeRes : Nat → CloseRes) (st : UtlState) :
    Option Err × UtlState :=
  match fclose_all_aux closeRes st.slots with
  | (r, slots2) => (r, ⟨slots2, st.slotid⟩)

/-- The sentinel path of the regression-test hack in `check_secure_locality`
(file.c line 744): the string "/tmp/regress_orafce". -/
def sentinel : List Char :=
  ['/', 't', 'm', 'p', '/', 'r', 'e', 'g', 'r', 'e', 's', 's', '_',
   'o', 'r', 'a', 'f', 'c', 'e']

/-- `check_secure_locality` (file.c lines 734-785).  The SQL query accepts
the path when `substring($1, 1, length(dir) + 1) = dir || chr(47)` for some
row `dir` of utl_file.utl_file_dir, i.e. when `dir ++ [separator]` is an
initial segment of the path; the sentinel path bypasses the lookup. -/
def check_secure_locality (allowed : List (List Char)) (path : List Char) :
    Except Err Unit :=
  if path = sentinel then .ok ()
  else if allowed.any (fun dir => (dir ++ ['/']).isPrefixOf path) then .ok ()
  else .error .InvalidPath

/-- `get_safe_path` (file.c lines 790-814): rejects empty components, builds
`location ++ separator ++ filename`, canonicalizes (the platform
`canonicalize_path`, an external collaborator, is a parameter `canon`) and
checks the locality of the canonical form. -/
def get_safe_path (canon : List Char → List Char)
    (allowed : List (List Char)) (location filename : List Char) :
    Except Err (List Char) :=
  if location = [] then .error .ParameterError
  else if filename = [] then .error .ParameterError
  else
    let fullname := canon (location ++ '/' :: filename)
    match check_secure_locality allowed fullname with
    | .ok _ => .ok fullname
    | .error e => .error e

/-- The validation phase of `utl_file_fopen` (file.c lines 207-241):
NON_EMPTY_TEXT on the mode, CHECK_LINESIZE on `max_linesize`, the length-1
check and the mode-letter switch, in the order of the source. -/
def fopen_validate (open_mode : List Char) (max_linesize : Int) :
    Except Err (List Char) :=
  if open_mode = [] then .error .ParameterError
  else if max_linesize < 1 ∨ max_linesize > MAX_LINESIZE then
    .error .InvalidMaxLinesize
  else
    match open_mode with
    | [c] =>
      if c = 'a' ∨ c = 'A' then .ok ['a']
      else if c = 'r' ∨ c = 'R' then .ok ['r']
      else if c = 'w' ∨ c = 'W' then .ok ['w']
      else .error .InvalidMode
    | _ => .error .InvalidMode

/-- The process state around the handle table: the table itself together
with the set of underlying streams currently open at the OS level (to make
stream leaks observable) and a supply of fresh stream names. -/
structure Sys where
  table : UtlState
  streams : List Nat
  nextStream : Nat
  deriving DecidableEq, Repr

/-- `utl_file_fopen` (file.c lines 197-261).  `fopenErr` is the outcome of
the underlying `fopen(3)` call (`none` = success).  On a successful OS open
the new stream joins `streams`; when `get_descriptor` finds no free slot the
stream is closed again (removed from `streams`) and the call fails with
ProgramLimitExceeded. -/
def utl_file_fopen (canon : List Char → List Char)
    (allowed : List (List Char)) (location filename open_mode : List Char)
    (max_linesize : Int) (fopenErr : Option Errno) (sys : Sys) :
    Except Err Int × Sys :=
  match fopen_validate open_mode max_linesize with
  | .error e => (.error e, sys)
  | .ok _ =>
    match get_safe_path canon allowed location filename with
    | .error e => (.error e, sys)
    | .ok _ =>
      match fopenErr with
      | some e => (.error (io_exception e), sys)
      | none =>
        let s := sys.nextStream
        let streams1 := sys.streams ++ [s]
        match get_descriptor sys.table s max_linesize with
        | (d, table2) =>
          if d = INVALID_SLOTID then
            (.error .ProgramLimitExceeded,
             ⟨table2, streams1.erase s, sys.nextStream + 1⟩)
          else
            (.ok d, ⟨table2, streams1, sys.nextStream + 1⟩)

/-- The character-reading loop of `get_line` (file.c lines 303-323).  The
first component records whether at least one character was read (the C code
sets `eof = false` there); the second is the line buffer; the third is the
part of the stream not consumed (an `ungetc` leaves the character in the
stream).  The `Nat` argument is the remaining capacity
`max_linesize - csize`. -/
def get_line_loop : List Char → Nat → Bool × List Char × List Char
  | input, 0 => (false, [], input)
  | [], _ + 1 => (false, [], [])
  | c :: rest, n + 1 =>
    if c = '\r' then
      match rest with
      | [] => (true, [], [])
      | c2 :: rest2 =>
        if c2 = '\n' then (true, [], rest2) else (true, [], c2 :: rest2)
    else if c = '\n' then (true, [], rest)
    else
      match get_line_loop rest n with
      | (_, l, r) => (true, c :: l, r)

/-- `get_line` (file.c lines 287-354) on an error-free stream: returns
`none` for the line exactly when `*iseof` is set (no character read),
together with the unconsumed rest of the stream. -/
def get_line (input : List Char) (max_linesize : Nat) :
    Option (List Char) × List Char :=
  match get_line_loop input max_linesize with
  | (true, line, rest) => (some line, rest)
  | (false, _, rest) => (none, rest)

/-- `utl_file_get_line` (file.c lines 366-394): the optional `len` argument
is bounds-checked and may only shrink the handle's `max_linesize`; end of
stream with nothing read raises NO_DATA_FOUND. -/
def utl_file_get_line (input : List Char) (max_linesize : Int)
    (len : Option Int) : Except Err (List Char × List Char) :=
  match len with
  | some l =>
    if l < 1 ∨ l > MAX_LINESIZE then .error .InvalidMaxLinesize
    else
      let m := if max_linesize > l then l else max_linesize
      match get_line input m.toNat with
      | (none, _) => .error .NoDataFound
      | (some line, rest) => .ok (line, rest)
  | none =>
    match get_line input max_linesize.toNat with
    | (none, _) => .error .NoDataFound
    | (some line, rest) => .ok (line, rest)

/-- `utl_file_get_nextline` (file.c lines 407-424): end of stream with
nothing read returns SQL NULL instead of raising. -/
def utl_file_get_nextline (input : List Char) (max_linesize : Int) :
    Option (List Char × List Char) :=
  match get_line input max_linesize.toNat with
  | (none, _) => none
  | (some line, rest) => some (line, rest)

/-- The format loop of `utl_file_putf` (file.c lines 577-627).  `args n` is
argument `argn` (`none` = SQL NULL or not supplied); `cur_par` counts the
`s`-substitutions seen so far, `cur_len` the characters emitted so far.
CHECK_LENGTH raises VALUE_ERROR as soon as the running length exceeds
`max_linesize`.  Returns the emitted characters. -/
def putf_loop (args : Nat → Option (List Char)) (max_linesize : Nat) :
    List Char → Nat → Nat → Except Err (List Char)
  | [], _, _ => .ok []
  | [c1], _, cur_len =>
    if cur_len + 1 > max_linesize then .error .ValueError else .ok [c1]
  | c1 :: c2 :: rest2, cur_par, cur_len =>
      if c1 = '\\' ∧ c2 = 'n' then
        if cur_len + 1 > max_linesize then .error .ValueError
        else
          match putf_loop args max_linesize rest2 cur_par (cur_len + 1) with
          | .error e => .error e
          | .ok out => .ok ('\n' :: out)
      else if c1 = '%' then
        if c2 = '%' then
          if cur_len + 1 > max_linesize then .error .ValueError
          else
            match putf_loop args max_linesize rest2 cur_par (cur_len + 1) with
            | .error e => .error e
            | .ok out => .ok ('%' :: out)
        else if c2 = 's' then
          if cur_par + 1 ≤ 5 then
            match args (cur_par + 1) with
            | some buf =>
              if cur_len + buf.length > max_linesize then .error .ValueError
              else
                match putf_loop args max_linesize rest2 (cur_par + 1)
                    (cur_len + buf.length) with
                | .error e => .error e
                | .ok out => .ok (buf ++ out)
            | none => putf_loop args max_linesize rest2 (cur_par + 1) cur_len
          else putf_loop args max_linesize rest2 (cur_par + 1) cur_len
        else putf_loop args max_linesize rest2 cur_par cur_len
      else
        if cur_len + 1 > max_linesize then .error .ValueError
        else
          match putf_loop args max_linesize (c2 :: rest2) cur_par
              (cur_len + 1) with
          | .error e => .error e
          | .ok out => .ok (c1 :: out)
  termination_by fmt _ _ => fmt.length
  decreasing_by all_goals simp <;> omega

/-- `utl_file_putf` (file.c lines 559-630) on an error-free stream. -/
def utl_file_putf (args : Nat → Option (List Char)) (format : List Char)
    (max_linesize : Nat) : Except Err (List Char) :=
  putf_loop args max_linesize format 0 0

/-- The outcome of the `stat(2)` probe on the rename destination. -/
inductive StatRes where
  | ok
  | err (e : Errno)
  deriving DecidableEq, Repr

/-- The `rename(2)` call at file.c line 858 with its IO_EXCEPTION
classification (`renameErr = none` means success). -/
def do_rename (renameErr : Option Errno) : Except Err Unit :=
  match renameErr with
  | none => .ok ()
  | some e => .error (io_exception e)

/-- `utl_file_frename` (file.c lines 832-862), from the two resolved paths
onward: the optional existence pre-check on the destination, then the
rename.  The Bool records whether `rename(2)` was attempted. -/
def utl_file_frename (overwrite : Bool) (dstStat : StatRes)
    (renameErr : Option Errno) : Except Err Unit × Bool :=
  if overwrite = false then
    match dstStat with
    | .ok => (.error .WriteError, false)
    | .err e =>
      if e = .enoent then (do_rename renameErr, true)
      else (.error (io_exception e), false)
  else (do_rename renameErr, true)

/-- Slot-wise relation between a slot list and its state after a (possibly
aborted) close scan: every slot is either untouched or properly cleared. -/
def origOrCleared (a b : FileSlot) : Prop := b = a ∨ b = clearSlot a

/-- What `utl_file_fclose_all` does to one slot it visits successfully. -/
def clearIfOccupied (s : FileSlot) : FileSlot :=
  if s.id = INVALID_SLOTID then s else clearSlot s

/-- The handle-table states reachable from the zero-initialized module state
through the table-mutating operations: open (via `get_descriptor`), close,
and close-all, with arbitrary stream-close outcomes. -/
inductive Reachable : UtlState → Prop where
  | init : Reachable initState
  | fopen (st : UtlState) (file : Nat) (maxls : Int) :
      Reachable st → Reachable (get_descriptor st file maxls).2
  | fclose (st : UtlState) (closeRes : Nat → CloseRes) (d : Int) :
      Reachable st → Reachable (utl_file_fclose closeRes st d).2
  | fcloseAll (st : UtlState) (closeRes : Nat → CloseRes) :
      Reachable st → Reachable (fclose_all closeRes st).2

/-- Reachability restricted to runs in which the `slotid` counter never
wraps around the int32 range. -/
inductive ReachableNoWrap : UtlState → Prop where
  | init : ReachableNoWrap initState
  | fopen (st : UtlState) (file : Nat) (maxls : Int) :
      ReachableNoWrap st → st.slotid + 1 < 2 ^ 31 →
      ReachableNoWrap (get_descriptor st file maxls).2
  | fclose (st : UtlState) (closeRes : Nat → CloseRes) (d : Int) :
      ReachableNoWrap st → ReachableNoWrap (utl_file_fclose closeRes st d).2
  | fcloseAll (st : UtlState) (closeRes : Nat → CloseRes) :
      ReachableNoWrap st → ReachableNoWrap (fclose_all closeRes st).2

/-- The slot holding the first stream ever opened (id 1). -/
def occSlot : FileSlot := ⟨some 0, 0, 1⟩

/-- A table with the first stream still open in slot 0 and the counter at
`n`: the shape maintained while opening and closing a scratch handle in
slot 1 over and over. -/
def cycleState (n : Int) : UtlState :=
  ⟨occSlot :: List.replicate 49 FileSlot.freeSlot, n⟩

/-- C9: rename with `overwrite = false` first probes the destination: if the
probe reports existence the call fails with WriteError without attempting
`rename(2)`; a probe failure other than "does not exist" is classified by
IO_EXCEPTION (never as the WriteError existence conflict) and the rename is
not attempted; a "does not exist" probe proceeds to the rename; with
`overwrite = true` the probe is skipped entirely and `rename(2)` is invoked
even when the destination exists, replacing it. -/
theorem frename_overwrite_precheck :
    (∀ r, utl_file_frename false .ok r = (.error .WriteError, false)) ∧
    (∀ e r, e ≠ Errno.enoent →
      utl_file_frename false (.err e) r = (.error (io_exception e), false) ∧
      io_exception e ≠ .WriteError) ∧
    (∀ r, utl_file_frename false (.err .enoent) r = (do_rename r, true)) ∧
    (∀ s r, utl_file_frename true s r = (do_rename r, true)) := by
  refine ⟨fun r => rfl, ?_, fun r => rfl, fun s r => rfl⟩
  intro e r he
  cases e <;> simp_all [utl_file_frename, io_exception]

/-- Witness for C9: a destination probe failing with EACCES is reported as
InvalidPath, not as the existence conflict, and the rename is not
attempted. -/
theorem frename_overwrite_precheck_witness :
    utl_file_frename false (.err .eacces) none =
      (.error (io_exception .eacces), false) ∧
    io_exception .eacces ≠ .WriteError :=
  frename_overwrite_precheck.2.1 .eacces none (by decide)

/-- Counterexample for C10: the empty mode string has length different from
one, yet `utl_file_fopen` rejects it with the invalid-parameter error of
NON_EMPTY_TEXT (file.c line 214), not with INVALID_MODE as the claim
requires. -/
theorem fopen_mode_empty_cex :
    fopen_validate [] 100 = .error .ParameterError ∧
    Err.ParameterError ≠ Err.InvalidMode := ⟨rfl, by decide⟩

/-- C10 (amended): with a valid `max_linesize`, each of the one-character
modes r, R, w, W, a, A is accepted (lowercase mapped to the same stdio mode
as uppercase), any other single character fails with InvalidMode, any mode
of length at least two fails with InvalidMode, and the empty mode string
fails earlier with the invalid-parameter (empty string) error. -/
theorem fopen_mode_amended :
    ∀ maxls : Int, 1 ≤ maxls → maxls ≤ MAX_LINESIZE →
      (fopen_validate ['r'] maxls = .ok ['r'] ∧
       fopen_validate ['R'] maxls = .ok ['r'] ∧
       fopen_validate ['w'] maxls = .ok ['w'] ∧
       fopen_validate ['W'] maxls = .ok ['w'] ∧
       fopen_validate ['a'] maxls = .ok ['a'] ∧
       fopen_validate ['A'] maxls = .ok ['a']) ∧
      (∀ c : Char, c ≠ 'r' → c ≠ 'R' → c ≠ 'w' → c ≠ 'W' → c ≠ 'a' →
        c ≠ 'A' → fopen_validate [c] maxls = .error .InvalidMode) ∧
      (∀ (c1 c2 : Char) (cs : List Char),
        fopen_validate (c1 :: c2 :: cs) maxls = .error .InvalidMode) ∧
      fopen_validate [] maxls = .error .ParameterError := by
  intro maxls h1 h2
  have hsize : ¬ (maxls < 1 ∨ maxls > MAX_LINESIZE) := by
    simp only [MAX_LINESIZE] at h2 ⊢
    omega
  refine ⟨?_, ?_, ?_, ?_⟩
  · simp [fopen_validate, hsize]
  · intro c hr hR hw hW ha hA
    simp [fopen_validate, hsize, hr, hR, hw, hW, ha, hA]
  · intro c1 c2 cs
    simp [fopen_validate, hsize]
  · simp [fopen_validate]

/-- Witness for C10 (amended) at `max_linesize = 100`: the lowercase mode x
is rejected with InvalidMode. -/
theorem fopen_mode_amended_witness :
    fopen_validate ['x'] 100 = .error .InvalidMode :=
  (fopen_mode_amended 100 (by norm_num) (by norm_num [MAX_LINESIZE])).2.1 'x'
    (by decide) (by decide) (by decide) (by decide) (by decide) (by decide)

/-- Counterexample for C1: with an empty allow-list no registered directory
matches anything, yet the pair (location "/tmp", filename "regress_orafce")
resolves successfully, because `check_secure_locality` short-circuits on the
sentinel path "/tmp/regress_orafce" (file.c line 744) instead of failing
with InvalidPath as the claim requires. -/
theorem sandbox_sentinel_bypass_cex :
    get_safe_path id [] ['/', 't', 'm', 'p']
      ['r', 'e', 'g', 'r', 'e', 's', 's', '_', 'o', 'r', 'a', 'f', 'c', 'e'] =
      .ok sentinel ∧
    (([] : List (List Char)).any
      (fun dir => (dir ++ ['/']).isPrefixOf sentinel)) = false ∧
    (Except.ok sentinel : Except Err (List Char)) ≠
      .error .InvalidPath := by
  refine ⟨rfl, rfl, by simp⟩

/-- C1 (amended): for nonempty components, the concatenated and
canonicalized path is accepted if and only if it starts with some allowed
directory immediately followed by the path separator, or it equals the
fixed sentinel path "/tmp/regress_orafce" that bypasses the allow-list;
when neither holds, resolution fails with InvalidPath. -/
theorem sandbox_prefix_match_amended :
    ∀ (canon : List Char → List Char) (allowed : List (List Char))
      (location filename : List Char),
      location ≠ [] → filename ≠ [] →
      (get_safe_path canon allowed location filename =
          .ok (canon (location ++ '/' :: filename)) ↔
        canon (location ++ '/' :: filename) = sentinel ∨
        ∃ dir ∈ allowed,
          (dir ++ ['/']) <+: canon (location ++ '/' :: filename)) ∧
      (¬ (canon (location ++ '/' :: filename) = sentinel ∨
          ∃ dir ∈ allowed,
            (dir ++ ['/']) <+: canon (location ++ '/' :: filename)) →
        get_safe_path canon allowed location filename =
          .error .InvalidPath) := by
  intro canon allowed location filename hl hf
  have hconv : ∀ (p : List Char),
      (allowed.any fun dir => (dir ++ ['/']).isPrefixOf p) = true ↔
      ∃ dir ∈ allowed, (dir ++ ['/']) <+: p := by
    intro p
    rw [List.any_eq_true]
    constructor
    · rintro ⟨dir, hdir, hp⟩
      exact ⟨dir, hdir, List.isPrefixOf_iff_prefix.mp hp⟩
    · rintro ⟨dir, hdir, hp⟩
      exact ⟨dir, hdir, List.isPrefixOf_iff_prefix.mpr hp⟩
  simp only [get_safe_path, if_neg hl, if_neg hf, check_secure_locality]
  by_cases hs : canon (location ++ '/' :: filename) = sentinel
  · rw [if_pos hs]
    constructor
    · exact ⟨fun _ => Or.inl hs, fun _ => rfl⟩
    · intro hcon
      exact absurd (Or.inl hs) hcon
  · rw [if_neg hs]
    by_cases ha : (allowed.any
        fun dir => (dir ++ ['/']).isPrefixOf
          (canon (location ++ '/' :: filename))) = true
    · rw [if_pos ha]
      have hex := (hconv (canon (location ++ '/' :: filename))).mp ha
      constructor
      · exact ⟨fun _ => Or.inr hex, fun _ => rfl⟩
      · intro hcon
        exact absurd (Or.inr hex) hcon
    · rw [if_neg ha]
      constructor
      · constructor
        · intro h
          simp at h
        · intro h
          rcases h with h | hex
          · exact absurd h hs
          · exact absurd
              ((hconv (canon (location ++ '/' :: filename))).mpr hex) ha
      · intro _
        rfl

/-- Witness for C1 (amended): "/data" with file "f" under allow-list
entry "/data" resolves to "/data/f". -/
theorem sandbox_prefix_match_amended_witness :
    get_safe_path id [['/', 'd', 'a', 't', 'a']]
      ['/', 'd', 'a', 't', 'a'] ['f'] =
      .ok ['/', 'd', 'a', 't', 'a', '/', 'f'] :=
  (sandbox_prefix_match_amended id [['/', 'd', 'a', 't', 'a']]
    ['/', 'd', 'a', 't', 'a'] ['f'] (by decide) (by decide)).1.mpr
    (Or.inr ⟨['/', 'd', 'a', 't', 'a'], by decide, ⟨['f'], by decide⟩⟩)

/-- Counterexample for C6: in the format string "%x" the character x is
neither emitted literally nor preceded by a literal percent: the code
(file.c line 621) skips both characters of any percent sequence other
than %% and a substituted %s, emitting nothing. -/
theorem putf_percent_other_cex :
    utl_file_putf (fun _ => none) ['%', 'x'] 10 = .ok [] ∧
    ([] : List Char) ≠ ['%', 'x'] := by
  constructor
  · simp [utl_file_putf, putf_loop]
  · simp

/-- C4: a single line read consumes at most `max_len` characters, the
returned line never contains a terminator character, and the stream
decomposes as line ++ terminator ++ rest where the terminator is empty
(capacity exhausted or end of stream), a lone newline, a lone carriage
return (consumed at end of stream, or with the following non-newline
character pushed back into the stream), or a carriage return followed by a
newline. -/
theorem get_line_terminators :
    ∀ (input : List Char) (maxls : Nat),
      (get_line_loop input maxls).2.1.length ≤ maxls ∧
      (∀ c ∈ (get_line_loop input maxls).2.1, c ≠ '\n' ∧ c ≠ '\r') ∧
      ∃ t, input = (get_line_loop input maxls).2.1 ++ t ++
          (get_line_loop input maxls).2.2 ∧
        (t = [] ∨ t = ['\n'] ∨ t = ['\r'] ∨ t = ['\r', '\n']) ∧
        (t = ['\r'] → (get_line_loop input maxls).2.2 ≠ [] →
          ∃ c2 r2, (get_line_loop input maxls).2.2 = c2 :: r2 ∧
            c2 ≠ '\n') := by
  intro input
  induction input with
  | nil =>
    intro maxls
    cases maxls with
    | zero => exact ⟨by simp [get_line_loop], by simp [get_line_loop],
        [], by simp [get_line_loop], Or.inl rfl, by simp⟩
    | succ n => exact ⟨by simp [get_line_loop], by simp [get_line_loop],
        [], by simp [get_line_loop], Or.inl rfl, by simp⟩
  | cons c rest ih =>
    intro maxls
    cases maxls with
    | zero =>
      exact ⟨by simp [get_line_loop], by simp [get_line_loop],
        [], by simp [get_line_loop], Or.inl rfl, by simp⟩
    | succ n =>
      by_cases hcr : c = '\r'
      · subst hcr
        cases rest with
        | nil =>
          refine ⟨by simp [get_line_loop], by simp [get_line_loop],
            ['\r'], by simp [get_line_loop], by simp, ?_⟩
          intro _ hne
          simp [get_line_loop] at hne
        | cons c2 rest2 =>
          by_cases hn : c2 = '\n'
          · subst hn
            exact ⟨by simp [get_line_loop], by simp [get_line_loop],
              ['\r', '\n'], by simp [get_line_loop], by simp, by simp⟩
          · refine ⟨by simp [get_line_loop, hn],
              by simp [get_line_loop, hn], ['\r'],
              by simp [get_line_loop, hn], by simp, ?_⟩
            intro _ _
            refine ⟨c2, rest2, by simp [get_line_loop, hn], hn⟩
      · by_cases hnl : c = '\n'
        · subst hnl
          exact ⟨by simp [get_line_loop], by simp [get_line_loop],
            ['\n'], by simp [get_line_loop], by simp, by simp⟩
        · obtain ⟨hlen, hchars, t, hdec, hforms, hpush⟩ := ih n
          rcases hgl : get_line_loop rest n with ⟨saw, l, r⟩
          rw [hgl] at hlen hchars hdec hpush
          have hred : get_line_loop (c :: rest) (n + 1) = (true, c :: l, r) := by
            simp [get_line_loop, hcr, hnl, hgl]
          rw [hred]
          refine ⟨by simpa using hlen, ?_, t, ?_, hforms, ?_⟩
          · intro x hx
            rcases List.mem_cons.mp hx with hx | hx
            · subst hx
              exact ⟨hnl, hcr⟩
            · exact hchars x hx
          · simpa using hdec
          · intro ht hr
            exact hpush ht hr

/-- C5: with a positive line-size limit, reading at end of stream with zero
characters consumed makes `utl_file_get_line` fail with NoDataFound and
`utl_file_get_nextline` return the explicit no-value signal, while a stream
with at least one character yields the same partial line (with is_eof
false) from both entry points — they differ only at end of stream. -/
theorem eof_behavior_entry_points :
    ∀ (input : List Char) (maxls : Int), 0 < maxls →
      (input = [] →
        utl_file_get_line input maxls none = .error .NoDataFound ∧
        utl_file_get_nextline input maxls = none) ∧
      (input ≠ [] → ∃ line rest,
        utl_file_get_line input maxls none = .ok (line, rest) ∧
        utl_file_get_nextline input maxls = some (line, rest)) := by
  intro input maxls hpos
  obtain ⟨n, hn⟩ : ∃ n, maxls.toNat = n + 1 := by
    have : 0 < maxls.toNat := by omega
    exact ⟨maxls.toNat - 1, by omega⟩
  constructor
  · intro hinput
    subst hinput
    simp [utl_file_get_line, utl_file_get_nextline, get_line, hn,
      get_line_loop]
  · intro hinput
    rcases hgl : get_line_loop input maxls.toNat with ⟨saw, l, r⟩
    have hsaw : saw = true := by
      cases input with
      | nil => exact absurd rfl hinput
      | cons c rest =>
        rw [hn] at hgl
        by_cases hcr : c = '\r'
        · subst hcr
          cases rest with
          | nil =>
            simp [get_line_loop] at hgl
            exact hgl.1
          | cons c2 rest2 =>
            by_cases hn2 : c2 = '\n' <;>
              simp [get_line_loop, hn2] at hgl <;> exact hgl.1
        · by_cases hnl : c = '\n'
          · subst hnl
            simp [get_line_loop] at hgl
            exact hgl.1
          · rcases hgl2 : get_line_loop rest n with ⟨saw2, l2, r2⟩
            simp [get_line_loop, hcr, hnl, hgl2] at hgl
            exact hgl.1
    subst hsaw
    refine ⟨l, r, ?_, ?_⟩
    · simp [utl_file_get_line, get_line, hgl]
    · simp [utl_file_get_nextline, get_line, hgl]

/-- Witness for C5 at the empty stream with limit 10: get_line raises
NoDataFound and get_nextline returns the no-value signal. -/
theorem eof_behavior_entry_points_witness :
    utl_file_get_line ([] : List Char) 10 none = .error .NoDataFound ∧
    utl_file_get_nextline ([] : List Char) 10 = none :=
  (eof_behavior_entry_points [] 10 (by norm_num)).1 rfl

/-- The running CHECK_LENGTH counter of putf: a successful format run never
emits more than `max_linesize - cur_len` further characters. -/
theorem putf_loop_ok_length (args : Nat → Option (List Char))
    (max_linesize : Nat) :
    ∀ (fmt : List Char) (cur_par cur_len : Nat),
      ∀ out, putf_loop args max_linesize fmt cur_par cur_len = .ok out →
        cur_len ≤ max_linesize → cur_len + out.length ≤ max_linesize := by
  intro fmt cur_par cur_len
  induction fmt, cur_par, cur_len using putf_loop.induct args max_linesize with
  | _ =>
    intro out hok hle
    simp_all [putf_loop]
    all_goals try split at hok
    all_goals try simp_all
    all_goals try split at hok
    all_goals try simp_all
    all_goals try rw [show out = _ from hok.symm]
    all_goals try simp
    all_goals omega

/-- The only error the putf format loop itself raises is VALUE_ERROR (on an
error-free stream). -/
theorem putf_loop_error_value (args : Nat → Option (List Char))
    (max_linesize : Nat) :
    ∀ (fmt : List Char) (cur_par cur_len : Nat),
      ∀ e, putf_loop args max_linesize fmt cur_par cur_len = .error e →
        e = .ValueError := by
  intro fmt cur_par cur_len
  induction fmt, cur_par, cur_len using putf_loop.induct args max_linesize with
  | _ =>
    intro e herr
    simp_all [putf_loop]
    all_goals try split at herr
    all_goals try simp_all
    all_goals try split at herr
    all_goals try simp_all
    all_goals omega

/-- C6 (amended): the format is processed left to right emitting one newline
for the escape sequence, a literal percent for %%, the next positional
argument for %s when within the first five occurrences and supplied
non-absent (otherwise the token is dropped), dropping a percent together
with any other following character, and emitting every remaining character
(including a trailing lone percent) literally; the claimed example
produces exactly the bytes a, X, b, newline, c in order, every emitted
character counts against max_linesize, and exceeding it is reported as
ValueError. -/
theorem putf_format_amended :
    (utl_file_putf (fun n => if n = 1 then some ['X'] else none)
      ['a', '%', 's', 'b', '\\', 'n', 'c'] 5 =
      .ok ['a', 'X', 'b', '\n', 'c']) ∧
    (utl_file_putf (fun n => if n = 1 then some ['X'] else none)
      ['a', '%', 's', 'b', '\\', 'n', 'c'] 4 = .error .ValueError) ∧
    (utl_file_putf (fun _ => none) ['%', '%'] 1 = .ok ['%']) ∧
    (utl_file_putf (fun _ => none) ['%', 's'] 10 = .ok []) ∧
    (utl_file_putf (fun _ => none) ['%', 'x'] 10 = .ok []) ∧
    (utl_file_putf (fun _ => none) ['%'] 10 = .ok ['%']) ∧
    (∀ args fmt maxls out, utl_file_putf args fmt maxls = .ok out →
      out.length ≤ maxls) ∧
    (∀ args fmt maxls e, utl_file_putf args fmt maxls = .error e →
      e = .ValueError) := by
  refine ⟨by simp [utl_file_putf, putf_loop],
    by simp [utl_file_putf, putf_loop],
    by simp [utl_file_putf, putf_loop],
    by simp [utl_file_putf, putf_loop],
    by simp [utl_file_putf, putf_loop],
    by simp [utl_file_putf, putf_loop], ?_, ?_⟩
  · intro args fmt maxls out hok
    have := putf_loop_ok_length args maxls fmt 0 0 out hok (Nat.zero_le _)
    omega
  · intro args fmt maxls e herr
    exact putf_loop_error_value args maxls fmt 0 0 e herr

/-- Witness for C6 (amended): the emitted bytes of the claimed example fit
the limit 5. -/
theorem putf_format_amended_witness :
    (['a', 'X', 'b', '\n', 'c'] : List Char).length ≤ 5 :=
  putf_format_amended.2.2.2.2.2.2.1
    (fun n => if n = 1 then some ['X'] else none)
    ['a', '%', 's', 'b', '\\', 'n', 'c'] 5 ['a', 'X', 'b', '\n', 'c']
    (by simp [utl_file_putf, putf_loop])

/-- The id assigned by `get_descriptor` is never the reserved invalid value:
the wraparound skip guarantees it. -/
theorem nextId_ne_zero : ∀ n : Int, nextId n ≠ INVALID_SLOTID := by
  intro n
  by_cases h : wrap32 (n + 1) = INVALID_SLOTID
  · have hn : nextId n = wrap32 (wrap32 (n + 1) + 1) := by
      simp [nextId, h]
    rw [hn, h]
    unfold wrap32 INVALID_SLOTID
    norm_num
  · have hn : nextId n = wrap32 (n + 1) := by
      simp [nextId, h]
    rw [hn]
    exact h

/-- When every slot is occupied the descriptor scan finds nothing and
reports failure. -/
theorem get_descriptor_aux_full (file : Nat) (maxls slotid : Int) :
    ∀ slots : List FileSlot, (∀ s ∈ slots, s.id ≠ INVALID_SLOTID) →
      get_descriptor_aux file maxls slotid slots = none := by
  intro slots
  induction slots with
  | nil => intro _; rfl
  | cons s rest ih =>
    intro h
    have hs : s.id ≠ INVALID_SLOTID := h s (by simp)
    have hrest := ih (fun x hx => h x (by simp [hx]))
    simp [get_descriptor_aux, hs, hrest]

/-- The descriptor scan either fails on a full table, or assigns exactly
the next counter value to one freshly filled slot and leaves every other
slot as it was. -/
theorem get_descriptor_aux_spec (file : Nat) (maxls slotid : Int) :
    ∀ slots : List FileSlot,
      (get_descriptor_aux file maxls slotid slots = none ∧
        ∀ s ∈ slots, s.id ≠ INVALID_SLOTID) ∨
      (∃ slots', get_descriptor_aux file maxls slotid slots =
          some (nextId slotid, slots', nextId slotid) ∧
        ∀ s ∈ slots', s ∈ slots ∨
          s = (⟨some file, maxls, nextId slotid⟩ : FileSlot)) := by
  intro slots
  induction slots with
  | nil => exact Or.inl ⟨rfl, by simp⟩
  | cons s rest ih =>
    by_cases hid : s.id = INVALID_SLOTID
    · refine Or.inr ⟨⟨some file, maxls, nextId slotid⟩ :: rest, ?_, ?_⟩
      · simp [get_descriptor_aux, hid]
      · intro x hx
        rcases List.mem_cons.mp hx with hx | hx
        · exact Or.inr hx
        · exact Or.inl (by simp [hx])
    · rcases ih with ⟨hnone, hall⟩ | ⟨rest', hsome, hmem⟩
      · refine Or.inl ⟨?_, ?_⟩
        · simp [get_descriptor_aux, hid, hnone]
        · intro x hx
          rcases List.mem_cons.mp hx with hx | hx
          · exact hx ▸ hid
          · exact hall x hx
      · refine Or.inr ⟨s :: rest', ?_, ?_⟩
        · simp [get_descriptor_aux, hid, hsome]
        · intro x hx
          rcases List.mem_cons.mp hx with hx | hx
          · exact Or.inl (by simp [hx])
          · rcases hmem x hx with hx2 | hx2
            · exact Or.inl (by simp [hx2])
            · exact Or.inr hx2

/-- A failed descriptor allocation leaves the table untouched. -/
theorem get_descriptor_fail_state (st : UtlState) (file : Nat) (maxls : Int)
    (h : (get_descriptor st file maxls).1 = INVALID_SLOTID) :
    (get_descriptor st file maxls).2 = st := by
  rcases get_descriptor_aux_spec file maxls st.slotid st.slots with
    ⟨hnone, -⟩ | ⟨slots', hsome, -⟩
  · simp [get_descriptor, hnone]
  · exfalso
    rw [get_descriptor, hsome] at h
    exact nextId_ne_zero st.slotid h

/-- C2: when the handle table is full (every one of the 50 slots occupied),
a further open call fails with ProgramLimitExceeded, the handle table is
left unchanged, and the stream just opened by the call is closed again (the
set of open OS streams is exactly what it was before the call). -/
theorem fopen_limit_no_leak :
    ∀ (canon : List Char → List Char) (allowed : List (List Char))
      (location filename open_mode : List Char) (max_linesize : Int)
      (sys : Sys) (m p : List Char),
      fopen_validate open_mode max_linesize = .ok m →
      get_safe_path canon allowed location filename = .ok p →
      sys.table.slots.length = MAX_SLOTS →
      (∀ s ∈ sys.table.slots, s.id ≠ INVALID_SLOTID) →
      sys.nextStream ∉ sys.streams →
      (utl_file_fopen canon allowed location filename open_mode max_linesize
          none sys).1 = .error .ProgramLimitExceeded ∧
      (utl_file_fopen canon allowed location filename open_mode max_linesize
          none sys).2.table = sys.table ∧
      (utl_file_fopen canon allowed location filename open_mode max_linesize
          none sys).2.streams = sys.streams := by
  intro canon allowed location filename open_mode max_linesize sys m p
    hval hpath hlen hfull hfresh
  have hnone := get_descriptor_aux_full sys.nextStream max_linesize
    sys.table.slotid sys.table.slots hfull
  have herase : (sys.streams ++ [sys.nextStream]).erase sys.nextStream =
      sys.streams := by
    rw [List.erase_append_right _ hfresh]
    simp
  simp [utl_file_fopen, hval, hpath, get_descriptor, hnone, herase,
    INVALID_SLOTID]

/-- Witness for C2: a concrete full table (50 occupied slots) with one open
stream; an open call fails with ProgramLimitExceeded and leaks nothing. -/
theorem fopen_limit_no_leak_witness :
    (utl_file_fopen id [['/', 'd']] ['/', 'd'] ['f'] ['r'] 100 none
        ⟨⟨List.replicate 50 (⟨some 0, 5, 1⟩ : FileSlot), 50⟩, [0], 7⟩).1 =
      .error .ProgramLimitExceeded ∧
    (utl_file_fopen id [['/', 'd']] ['/', 'd'] ['f'] ['r'] 100 none
        ⟨⟨List.replicate 50 (⟨some 0, 5, 1⟩ : FileSlot), 50⟩, [0], 7⟩).2.table =
      ⟨List.replicate 50 (⟨some 0, 5, 1⟩ : FileSlot), 50⟩ ∧
    (utl_file_fopen id [['/', 'd']] ['/', 'd'] ['f'] ['r'] 100 none
        ⟨⟨List.replicate 50 (⟨some 0, 5, 1⟩ : FileSlot), 50⟩, [0], 7⟩).2.streams =
      [0] :=
  fopen_limit_no_leak id [['/', 'd']] ['/', 'd'] ['f'] ['r'] 100
    ⟨⟨List.replicate 50 (⟨some 0, 5, 1⟩ : FileSlot), 50⟩, [0], 7⟩
    ['r'] ['/', 'd', '/', 'f'] rfl rfl (by simp [MAX_SLOTS])
    (by
      intro s hs
      rw [List.eq_of_mem_replicate hs]
      simp [INVALID_SLOTID])
    (by decide)

/-- A close call that raises leaves the slot array exactly as it was: the
clearing writes happen only after a successful `fclose`. -/
theorem fclose_aux_error_state (closeRes : Nat → CloseRes) (d : Int) :
    ∀ (slots : List FileSlot) (e : Err),
      (fclose_aux closeRes d slots).1 = .error e →
      (fclose_aux closeRes d slots).2 = slots := by
  intro slots
  induction slots with
  | nil => intro e _; rfl
  | cons s rest ih =>
    intro e herr
    by_cases hid : s.id = d
    · rcases hf : s.file with - | f
      · simp [fclose_aux, hid, hf] at herr
      · rcases hc : closeRes f with - | - | - <;>
          simp [fclose_aux, hid, hf, hc] at herr ⊢
    · rcases haux : fclose_aux closeRes d rest with ⟨r, rest2⟩
      have h2 : (fclose_aux closeRes d (s :: rest)) = (r, s :: rest2) := by
        simp [fclose_aux, hid, haux]
      rw [h2] at herr ⊢
      have := ih e (by rw [haux]; exact herr)
      rw [haux] at this
      simp only at this ⊢
      rw [this]

/-- The single close scan relates the slot arrays slot by slot: each slot
is untouched or cleared. -/
theorem fclose_aux_slots (closeRes : Nat → CloseRes) (d : Int) :
    ∀ slots : List FileSlot,
      List.Forall₂ origOrCleared slots (fclose_aux closeRes d slots).2 := by
  intro slots
  induction slots with
  | nil => exact List.Forall₂.nil
  | cons s rest ih =>
    by_cases hid : s.id = d
    · rcases hf : s.file with - | f
      · simp only [fclose_aux, hid, if_pos, hf]
        exact List.Forall₂.cons (Or.inr rfl) (List.forall₂_same.mpr
          (fun x _ => Or.inl rfl))
      · rcases hc : closeRes f with - | - | - <;>
          simp only [fclose_aux, hid, if_pos, hf, hc] <;>
          refine List.Forall₂.cons ?_ (List.forall₂_same.mpr
            (fun x _ => Or.inl rfl))
        · exact Or.inr rfl
        · exact Or.inl rfl
        · exact Or.inl rfl
    · rcases haux : fclose_aux closeRes d rest with ⟨r, rest2⟩
      have h2 : (fclose_aux closeRes d (s :: rest)) = (r, s :: rest2) := by
        simp [fclose_aux, hid, haux]
      rw [h2]
      have := ih
      rw [haux] at this
      exact List.Forall₂.cons (Or.inl rfl) this

/-- The close-all scan relates the slot arrays slot by slot: each slot
is untouched (not yet visited, failing, or free) or cleared. -/
theorem fclose_all_aux_slots (closeRes : Nat → CloseRes) :
    ∀ slots : List FileSlot,
      List.Forall₂ origOrCleared slots (fclose_all_aux closeRes slots).2 := by
  intro slots
  induction slots with
  | nil => exact List.Forall₂.nil
  | cons s rest ih =>
    rcases haux : fclose_all_aux closeRes rest with ⟨r, rest2⟩
    have htail : List.Forall₂ origOrCleared rest rest2 := by
      have := ih
      rw [haux] at this
      exact this
    by_cases hid : s.id = INVALID_SLOTID
    · have h2 : fclose_all_aux closeRes (s :: rest) = (r, s :: rest2) := by
        simp [fclose_all_aux, hid, haux]
      rw [h2]
      exact List.Forall₂.cons (Or.inl rfl) htail
    · rcases hf : s.file with - | f
      · have h2 : fclose_all_aux closeRes (s :: rest) =
            (r, clearSlot s :: rest2) := by
          simp [fclose_all_aux, hid, hf, haux]
        rw [h2]
        exact List.Forall₂.cons (Or.inr rfl) htail
      · rcases hc : closeRes f with - | - | -
        · have h2 : fclose_all_aux closeRes (s :: rest) =
              (r, clearSlot s :: rest2) := by
            simp [fclose_all_aux, hid, hf, hc, haux]
          rw [h2]
          exact List.Forall₂.cons (Or.inr rfl) htail
        · have h2 : fclose_all_aux closeRes (s :: rest) =
              (some .InvalidFileHandle, s :: rest) := by
            simp [fclose_all_aux, hid, hf, hc]
          rw [h2]
          exact List.Forall₂.cons (Or.inl rfl) (List.forall₂_same.mpr
            (fun x _ => Or.inl rfl))
        · have h2 : fclose_all_aux closeRes (s :: rest) =
              (some .WriteError, s :: rest) := by
            simp [fclose_all_aux, hid, hf, hc]
          rw [h2]
          exact List.Forall₂.cons (Or.inl rfl) (List.forall₂_same.mpr
            (fun x _ => Or.inl rfl))

/-- C7: a failing call aborts only itself and never corrupts the table or
the stream set: a failing single close leaves the whole table unchanged; a
close-all (even when it aborts on a failure) leaves every slot either
untouched or properly cleared and the counter unchanged, so other handles
still resolve and new opens still work; any failing open leaves the table
and the set of open OS streams exactly as they were. -/
theorem failure_preserves_state :
    (∀ (closeRes : Nat → CloseRes) (st : UtlState) (d : Int) (e : Err),
      (utl_file_fclose closeRes st d).1 = .error e →
      (utl_file_fclose closeRes st d).2 = st) ∧
    (∀ (closeRes : Nat → CloseRes) (st : UtlState),
      (fclose_all closeRes st).2.slotid = st.slotid ∧
      List.Forall₂ origOrCleared st.slots (fclose_all closeRes st).2.slots) ∧
    (∀ (canon : List Char → List Char) (allowed : List (List Char))
       (location filename open_mode : List Char) (max_linesize : Int)
       (fopenErr : Option Errno) (sys : Sys) (e : Err),
      sys.nextStream ∉ sys.streams →
      (utl_file_fopen canon allowed location filename open_mode max_linesize
          fopenErr sys).1 = .error e →
      (utl_file_fopen canon allowed location filename open_mode max_linesize
          fopenErr sys).2.table = sys.table ∧
      (utl_file_fopen canon allowed location filename open_mode max_linesize
          fopenErr sys).2.streams = sys.streams) := by
  refine ⟨?_, ?_, ?_⟩
  · intro closeRes st d e herr
    rcases haux : fclose_aux closeRes d st.slots with ⟨r, slots2⟩
    have h2 : utl_file_fclose closeRes st d = (r, ⟨slots2, st.slotid⟩) := by
      simp [utl_file_fclose, haux]
    rw [h2] at herr ⊢
    have := fclose_aux_error_state closeRes d st.slots e
      (by rw [haux]; exact herr)
    rw [haux] at this
    simp only at this
    rw [this]
  · intro closeRes st
    rcases haux : fclose_all_aux closeRes st.slots with ⟨r, slots2⟩
    have h2 : fclose_all closeRes st = (r, ⟨slots2, st.slotid⟩) := by
      simp [fclose_all, haux]
    rw [h2]
    have := fclose_all_aux_slots closeRes st.slots
    rw [haux] at this
    exact ⟨rfl, this⟩
  · intro canon allowed location filename open_mode max_linesize fopenErr
      sys e hfresh
    rcases hv : fopen_validate open_mode max_linesize with e1 | m
    · intro _
      simp [utl_file_fopen, hv]
    · rcases hp : get_safe_path canon allowed location filename with e2 | p
      · intro _
        simp [utl_file_fopen, hv, hp]
      · rcases fopenErr with - | eo
        · rcases hd : get_descriptor sys.table sys.nextStream max_linesize
            with ⟨d, table2⟩
          by_cases hzero : d = INVALID_SLOTID
          · intro _
            subst hzero
            have htab := get_descriptor_fail_state sys.table sys.nextStream
              max_linesize (by rw [hd])
            rw [hd] at htab
            simp only at htab
            have herase :
                (sys.streams ++ [sys.nextStream]).erase sys.nextStream =
                sys.streams := by
              rw [List.erase_append_right _ hfresh]
              simp
            simp [utl_file_fopen, hv, hp, hd, htab, herase]
          · intro habs
            exfalso
            simp [utl_file_fopen, hv, hp, hd, hzero] at habs
        · intro _
          simp [utl_file_fopen, hv, hp]

/-- Witness for C7: a concrete failing close (the stream close reports an
error other than EBADF) leaves the one-slot table unchanged. -/
theorem failure_preserves_state_witness :
    (utl_file_fclose (fun _ => CloseRes.eother)
        ⟨[⟨some 10, 5, 1⟩], 1⟩ 1).2 = ⟨[⟨some 10, 5, 1⟩], 1⟩ :=
  failure_preserves_state.1 (fun _ => CloseRes.eother)
    ⟨[⟨some 10, 5, 1⟩], 1⟩ 1 .WriteError rfl

/-- Counterexample for C3: with slot 0 and slot 1 both occupied and the
close of slot 0's stream failing, `utl_file_fclose_all` raises WriteError
out of the loop and never visits slot 1, which remains occupied (stream and
id not cleared) even though its close would have succeeded — the scan does
abort on the first failure. -/
theorem fclose_all_abort_cex :
    (fclose_all (fun n => if n = 10 then CloseRes.eother else .ok)
      ⟨(⟨some 10, 5, 1⟩ : FileSlot) :: (⟨some 11, 5, 2⟩ : FileSlot) ::
        List.replicate 48 FileSlot.freeSlot, 2⟩).1 = some .WriteError ∧
    (fclose_all (fun n => if n = 10 then CloseRes.eother else .ok)
      ⟨(⟨some 10, 5, 1⟩ : FileSlot) :: (⟨some 11, 5, 2⟩ : FileSlot) ::
        List.replicate 48 FileSlot.freeSlot, 2⟩).2.slots.get? 1 =
      some ⟨some 11, 5, 2⟩ ∧
    ((fun n => if n = 10 then CloseRes.eother else CloseRes.ok) 11) =
      CloseRes.ok := by
  refine ⟨rfl, rfl, rfl⟩

/-- The close-all scan: on success every slot is reclaimed (given that free
slots hold no stream); on failure the error is InvalidFileHandle or
WriteError, some occupied slot's close failed, the slots before it are
reclaimed where occupied, and it and everything after it are untouched. -/
theorem fclose_all_aux_spec (closeRes : Nat → CloseRes) :
    ∀ slots : List FileSlot,
      ((fclose_all_aux closeRes slots).1 = none →
        (∀ s ∈ slots, s.id = INVALID_SLOTID → s.file = none) →
        ∀ s ∈ (fclose_all_aux closeRes slots).2,
          s.id = INVALID_SLOTID ∧ s.file = none) ∧
      (∀ e, (fclose_all_aux closeRes slots).1 = some e →
        (e = .InvalidFileHandle ∨ e = .WriteError) ∧
        ∃ i f s, slots.get? i = some s ∧ s.id ≠ INVALID_SLOTID ∧
          s.file = some f ∧ closeRes f ≠ .ok ∧
          (fclose_all_aux closeRes slots).2 =
            (slots.take i).map clearIfOccupied ++ slots.drop i) := by
  intro slots
  induction slots with
  | nil =>
    constructor
    · intro _ _ s hs
      simp [fclose_all_aux] at hs
    · intro e he
      simp [fclose_all_aux] at he
  | cons s0 rest ih =>
    rcases haux : fclose_all_aux closeRes rest with ⟨r, rest2⟩
    have ihn := ih.1
    have ihe := ih.2
    rw [haux] at ihn ihe
    simp only at ihn ihe
    by_cases hid : s0.id = INVALID_SLOTID
    · have h2 : fclose_all_aux closeRes (s0 :: rest) = (r, s0 :: rest2) := by
        simp [fclose_all_aux, hid, haux]
      rw [h2]
      constructor
      · intro hr hwf x hx
        rcases List.mem_cons.mp hx with hx | hx
        · subst hx
          exact ⟨hid, hwf _ (by simp) hid⟩
        · exact ihn hr (fun y hy => hwf y (by simp [hy])) x hx
      · intro e he
        simp only at he
        obtain ⟨hkind, i, f, sw, hget, hocc, hfile, hcl, hshape⟩ := ihe e he
        refine ⟨hkind, i + 1, f, sw, by simpa using hget, hocc, hfile, hcl, ?_⟩
        simp only [List.take_succ_cons, List.map_cons, List.drop_succ_cons]
        rw [hshape]
        simp [clearIfOccupied, hid]
    · rcases hf : s0.file with - | f
      · have h2 : fclose_all_aux closeRes (s0 :: rest) =
            (r, clearSlot s0 :: rest2) := by
          simp [fclose_all_aux, hid, hf, haux]
        rw [h2]
        constructor
        · intro hr hwf x hx
          rcases List.mem_cons.mp hx with hx | hx
          · subst hx
            exact ⟨rfl, rfl⟩
          · exact ihn hr (fun y hy => hwf y (by simp [hy])) x hx
        · intro e he
          simp only at he
          obtain ⟨hkind, i, g, sw, hget, hocc, hfile, hcl, hshape⟩ := ihe e he
          refine ⟨hkind, i + 1, g, sw, by simpa using hget, hocc, hfile, hcl,
            ?_⟩
          simp only [List.take_succ_cons, List.map_cons, List.drop_succ_cons]
          rw [hshape]
          simp [clearIfOccupied, hid]
      · rcases hc : closeRes f with - | - | -
        · have h2 : fclose_all_aux closeRes (s0 :: rest) =
              (r, clearSlot s0 :: rest2) := by
            simp [fclose_all_aux, hid, hf, hc, haux]
          rw [h2]
          constructor
          · intro hr hwf x hx
            rcases List.mem_cons.mp hx with hx | hx
            · subst hx
              exact ⟨rfl, rfl⟩
            · exact ihn hr (fun y hy => hwf y (by simp [hy])) x hx
          · intro e he
            simp only at he
            obtain ⟨hkind, i, g, sw, hget, hocc, hfile, hcl, hshape⟩ :=
              ihe e he
            refine ⟨hkind, i + 1, g, sw, by simpa using hget, hocc, hfile,
              hcl, ?_⟩
            simp only [List.take_succ_cons, List.map_cons,
              List.drop_succ_cons]
            rw [hshape]
            simp [clearIfOccupied, hid]
        · have h2 : fclose_all_aux closeRes (s0 :: rest) =
              (some .InvalidFileHandle, s0 :: rest) := by
            simp [fclose_all_aux, hid, hf, hc]
          rw [h2]
          constructor
          · intro hr
            simp at hr
          · intro e he
            simp only [Option.some.injEq] at he
            subst he
            exact ⟨Or.inl rfl, 0, f, s0, rfl, hid, hf, by simp [hc], by simp⟩
        · have h2 : fclose_all_aux closeRes (s0 :: rest) =
              (some .WriteError, s0 :: rest) := by
            simp [fclose_all_aux, hid, hf, hc]
          rw [h2]
          constructor
          · intro hr
            simp at hr
          · intro e he
            simp only [Option.some.injEq] at he
            subst he
            exact ⟨Or.inr rfl, 0, f, s0, rfl, hid, hf, by simp [hc], by simp⟩

/-- C3 (amended): `fclose_all` visits the occupied slots in order but
aborts at the first close failure: when no close fails (and free slots hold
no stream) every slot ends reclaimed (stream and id cleared); when a close
fails, the failure surfaces as WriteError (or InvalidFileHandle for EBADF),
the slots before the failing one are reclaimed where they were occupied,
and the failing slot together with every later slot is left untouched —
the scan does not continue past the failure. -/
theorem fclose_all_scan_amended :
    ∀ (closeRes : Nat → CloseRes) (st : UtlState),
      ((fclose_all closeRes st).1 = none →
        (∀ s ∈ st.slots, s.id = INVALID_SLOTID → s.file = none) →
        ∀ s ∈ (fclose_all closeRes st).2.slots,
          s.id = INVALID_SLOTID ∧ s.file = none) ∧
      (∀ e, (fclose_all closeRes st).1 = some e →
        (e = .InvalidFileHandle ∨ e = .WriteError) ∧
        ∃ i f s, st.slots.get? i = some s ∧ s.id ≠ INVALID_SLOTID ∧
          s.file = some f ∧ closeRes f ≠ .ok ∧
          (fclose_all closeRes st).2.slots =
            (st.slots.take i).map clearIfOccupied ++ st.slots.drop i) := by
  intro closeRes st
  rcases haux : fclose_all_aux closeRes st.slots with ⟨r, slots2⟩
  have h2 : fclose_all closeRes st = (r, ⟨slots2, st.slotid⟩) := by
    simp [fclose_all, haux]
  rw [h2]
  have hspec := fclose_all_aux_spec closeRes st.slots
  rw [haux] at hspec
  simp only at hspec ⊢
  exact hspec

/-- Witness for C3 (amended): on a one-slot table whose close fails with a
non-EBADF error, the scan reports WriteError and stops at that slot. -/
theorem fclose_all_scan_amended_witness :
    (Err.WriteError = Err.InvalidFileHandle ∨
      Err.WriteError = Err.WriteError) ∧
    ∃ i f s,
      (⟨[(⟨some 10, 5, 1⟩ : FileSlot)], 1⟩ : UtlState).slots.get? i =
        some s ∧
      s.id ≠ INVALID_SLOTID ∧ s.file = some f ∧
      (fun _ => CloseRes.eother) f ≠ CloseRes.ok ∧
      (fclose_all (fun _ => CloseRes.eother)
          ⟨[(⟨some 10, 5, 1⟩ : FileSlot)], 1⟩).2.slots =
        (((⟨[(⟨some 10, 5, 1⟩ : FileSlot)], 1⟩ : UtlState)).slots.take
            i).map clearIfOccupied ++
          (⟨[(⟨some 10, 5, 1⟩ : FileSlot)], 1⟩ : UtlState).slots.drop i :=
  (fclose_all_scan_amended (fun _ => CloseRes.eother)
    ⟨[(⟨some 10, 5, 1⟩ : FileSlot)], 1⟩).2 .WriteError rfl

/-- The very first open lands in slot 0 with id 1. -/
theorem cycle_first : Reachable (cycleState 1) := by
  have h := Reachable.fopen initState 0 0 Reachable.init
  have heq : get_descriptor initState 0 0 = (1, cycleState 1) := by rfl
  rw [heq] at h
  exact h

/-- One open/close cycle through slot 1 advances the counter by one (while
no wrap lands on the reserved values 0 and 1). -/
theorem cycle_step (n : Int) (h0 : wrap32 (n + 1) ≠ 0)
    (h1 : wrap32 (n + 1) ≠ 1) (hr : Reachable (cycleState n)) :
    Reachable (cycleState (wrap32 (n + 1))) := by
  have hrep : (List.replicate 49 FileSlot.freeSlot) =
      FileSlot.freeSlot :: List.replicate 48 FileSlot.freeSlot := rfl
  have hnext : nextId n = wrap32 (n + 1) := by
    simp [nextId, INVALID_SLOTID, h0]
  have hopen : get_descriptor (cycleState n) 0 0 =
      (wrap32 (n + 1),
       ⟨occSlot :: (⟨some 0, 0, wrap32 (n + 1)⟩ : FileSlot) ::
          List.replicate 48 FileSlot.freeSlot, wrap32 (n + 1)⟩) := by
    simp [get_descriptor, cycleState, hrep, get_descriptor_aux, occSlot,
      FileSlot.freeSlot, hnext, INVALID_SLOTID]
  have hclose : utl_file_fclose (fun _ => CloseRes.ok)
      (⟨occSlot :: (⟨some 0, 0, wrap32 (n + 1)⟩ : FileSlot) ::
          List.replicate 48 FileSlot.freeSlot, wrap32 (n + 1)⟩ : UtlState)
      (wrap32 (n + 1)) = (.ok (), cycleState (wrap32 (n + 1))) := by
    have hne : ¬ (1 : Int) = wrap32 (n + 1) := fun h => h1 h.symm
    simp [utl_file_fclose, fclose_aux, hne, clearSlot, cycleState, hrep,
      occSlot, FileSlot.freeSlot]
  have h2 := Reachable.fopen (cycleState n) 0 0 hr
  rw [hopen] at h2
  have h3 := Reachable.fclose _ (fun _ => CloseRes.ok) (wrap32 (n + 1)) h2
  rw [hclose] at h3
  exact h3

/-- Iterating open/close cycles reaches every counter value up to the point
just before the wrap lands back on 1. -/
theorem cycle_reach : ∀ k : Nat, k ≤ 2 ^ 32 - 2 →
    Reachable (cycleState (wrap32 (1 + (k : Int)))) := by
  intro k
  induction k with
  | zero =>
    intro _
    have h1 : wrap32 (1 + ((0 : Nat) : Int)) = 1 := by
      unfold wrap32
      norm_num
    rw [h1]
    exact cycle_first
  | succ k ih =>
    intro hk
    have hk' : k ≤ 2 ^ 32 - 2 := by omega
    have h := ih hk'
    have hcomp : wrap32 (wrap32 (1 + (k : Int)) + 1) =
        wrap32 (1 + ((k + 1 : Nat) : Int)) := by
      unfold wrap32
      push_cast
      omega
    have hne0 : wrap32 (1 + ((k + 1 : Nat) : Int)) ≠ 0 := by
      unfold wrap32
      push_cast
      have hknn : (0 : Int) ≤ (k : Int) := Int.natCast_nonneg k
      omega
    have hne1 : wrap32 (1 + ((k + 1 : Nat) : Int)) ≠ 1 := by
      unfold wrap32
      push_cast
      have hknn : (0 : Int) ≤ (k : Int) := Int.natCast_nonneg k
      omega
    have hstep := cycle_step (wrap32 (1 + (k : Int)))
      (by rw [hcomp]; exact hne0) (by rw [hcomp]; exact hne1) h
    rw [hcomp] at hstep
    exact hstep

/-- Counterexample for C8: after the counter wraps all the way around while
the very first handle (id 1) stays open, the skip lands the counter on 0,
the skip advances it to 1, and a second live slot receives the id 1 that
slot 0 still holds — a reachable handle-table state in which an id value is
not unique among the occupied slots. -/
theorem id_uniqueness_wrap_cex :
    ∃ st, Reachable st ∧ ¬ (occupiedIds st.slots).Nodup := by
  have hcast : ((4294967294 : Nat) : Int) = 4294967294 := by norm_num
  have hreach := cycle_reach 4294967294 (by norm_num)
  rw [hcast] at hreach
  have hval : wrap32 (1 + (4294967294 : Int)) = -1 := by
    unfold wrap32
    norm_num
  rw [hval] at hreach
  have hfinal : get_descriptor (cycleState (-1)) 0 0 =
      (1, ⟨occSlot :: (⟨some 0, 0, 1⟩ : FileSlot) ::
         List.replicate 48 FileSlot.freeSlot, 1⟩) := by rfl
  have h := Reachable.fopen (cycleState (-1)) 0 0 hreach
  rw [hfinal] at h
  refine ⟨_, h, ?_⟩
  decide

/-- Unfolding of the occupied-id list over a cons cell. -/
theorem occupiedIds_cons (s : FileSlot) (rest : List FileSlot) :
    occupiedIds (s :: rest) =
      if s.id = 0 then occupiedIds rest else s.id :: occupiedIds rest := by
  by_cases h : s.id = 0 <;> simp [occupiedIds, List.filterMap_cons, h]

/-- A close scan can only remove ids from the occupied-id list. -/
theorem occupiedIds_sublist :
    ∀ {l l' : List FileSlot}, List.Forall₂ origOrCleared l l' →
      List.Sublist (occupiedIds l') (occupiedIds l) := by
  intro l l' h
  induction h with
  | nil => simp [occupiedIds]
  | @cons a b as bs hab htail ih =>
    rcases hab with hb | hb
    · rw [hb, occupiedIds_cons, occupiedIds_cons]
      by_cases ha : a.id = 0
      · simpa [ha] using ih
      · simpa [ha] using ih.cons₂ a.id
    · rw [hb, occupiedIds_cons, occupiedIds_cons]
      have hcl : (clearSlot a).id = 0 := rfl
      by_cases ha : a.id = 0
      · simpa [hcl, ha] using ih
      · simpa [hcl, ha] using ih.cons a.id

/-- A close scan preserves the property that a slot holding a stream has a
valid (nonzero) id. -/
theorem origOrCleared_zero_free :
    ∀ {l l' : List FileSlot}, List.Forall₂ origOrCleared l l' →
      (∀ s ∈ l, s.file.isSome = true → s.id ≠ INVALID_SLOTID) →
      ∀ s ∈ l', s.file.isSome = true → s.id ≠ INVALID_SLOTID := by
  intro l l' h
  induction h with
  | nil =>
    intro _ s hs
    simp at hs
  | @cons a b as bs hab htail ih =>
    intro hl s hs hsome
    rcases List.mem_cons.mp hs with hseq | hsmem
    · rcases hab with hb | hb
      · rw [hseq, hb] at hsome ⊢
        exact hl a (by simp) hsome
      · rw [hseq, hb] at hsome
        simp [clearSlot] at hsome
    · exact ih (fun x hx => hl x (by simp [hx])) s hsmem hsome

/-- Every reachable table state keeps the reserved invalid id 0 off the
occupied slots: a slot holding a stream always has a nonzero id. -/
theorem reachable_zero_free :
    ∀ st, Reachable st → ∀ s ∈ st.slots, s.file.isSome = true →
      s.id ≠ INVALID_SLOTID := by
  intro st h
  induction h with
  | init =>
    intro s hs hsome
    rw [List.eq_of_mem_replicate hs] at hsome
    simp [FileSlot.freeSlot] at hsome
  | fopen st file maxls hr ih =>
    intro s hs hsome
    rcases get_descriptor_aux_spec file maxls st.slotid st.slots with
      ⟨hnone, -⟩ | ⟨slots', hsome2, hmem⟩
    · rw [show (get_descriptor st file maxls).2 = st by
        simp [get_descriptor, hnone]] at hs
      exact ih s hs hsome
    · rw [show (get_descriptor st file maxls).2 =
          ⟨slots', nextId st.slotid⟩ by simp [get_descriptor, hsome2]] at hs
      rcases hmem s hs with hmem2 | hmem2
      · exact ih s hmem2 hsome
      · rw [hmem2]
        exact nextId_ne_zero st.slotid
  | fclose st closeRes d hr ih =>
    intro s hs hsome
    rcases haux : fclose_aux closeRes d st.slots with ⟨r, slots2⟩
    have hrel := fclose_aux_slots closeRes d st.slots
    rw [haux] at hrel
    rw [show (utl_file_fclose closeRes st d).2 = ⟨slots2, st.slotid⟩ by
      simp [utl_file_fclose, haux]] at hs
    exact origOrCleared_zero_free hrel ih s hs hsome
  | fcloseAll st closeRes hr ih =>
    intro s hs hsome
    rcases haux : fclose_all_aux closeRes st.slots with ⟨r, slots2⟩
    have hrel := fclose_all_aux_slots closeRes st.slots
    rw [haux] at hrel
    rw [show (fclose_all closeRes st).2 = ⟨slots2, st.slotid⟩ by
      simp [fclose_all, haux]] at hs
    exact origOrCleared_zero_free hrel ih s hs hsome

/-- The descriptor scan adds at most the fresh id to the occupied ids, and
keeps them duplicate-free provided the fresh id is indeed fresh. -/
theorem get_descriptor_aux_nodup (file : Nat) (maxls n : Int)
    (hne : nextId n ≠ 0) :
    ∀ slots : List FileSlot,
      nextId n ∉ occupiedIds slots →
      (occupiedIds slots).Nodup →
      ∀ i slots' sid,
        get_descriptor_aux file maxls n slots = some (i, slots', sid) →
        (∀ x ∈ occupiedIds slots', x ∈ occupiedIds slots ∨ x = nextId n) ∧
        (occupiedIds slots').Nodup := by
  intro slots
  induction slots with
  | nil =>
    intro _ _ i slots' sid h
    simp [get_descriptor_aux] at h
  | cons s0 rest ih =>
    intro hfresh hnodup i slots' sid h
    by_cases hid : s0.id = INVALID_SLOTID
    · have hid0 : s0.id = 0 := hid
      have hunf : get_descriptor_aux file maxls n (s0 :: rest) =
          some (nextId n, (⟨some file, maxls, nextId n⟩ : FileSlot) :: rest,
            nextId n) := by
        simp [get_descriptor_aux, hid]
      rw [hunf] at h
      simp only [Option.some.injEq, Prod.mk.injEq] at h
      obtain ⟨h1, h2, h3⟩ := h
      subst h2
      rw [occupiedIds_cons, if_pos hid0] at hfresh hnodup
      have hnew : ((⟨some file, maxls, nextId n⟩ : FileSlot)).id =
          nextId n := rfl
      constructor
      · intro x hx
        rw [occupiedIds_cons, hnew, if_neg hne] at hx
        rw [occupiedIds_cons, if_pos hid0]
        rcases List.mem_cons.mp hx with hx | hx
        · exact Or.inr hx
        · exact Or.inl hx
      · rw [occupiedIds_cons, hnew, if_neg hne]
        exact List.nodup_cons.mpr ⟨hfresh, hnodup⟩
    · rcases haux : get_descriptor_aux file maxls n rest with - |
        ⟨i2, rest2, sid2⟩
      · simp [get_descriptor_aux, hid, haux] at h
      · have hid0 : ¬ (s0.id = 0) := hid
        have hunf : get_descriptor_aux file maxls n (s0 :: rest) =
            some (i2, s0 :: rest2, sid2) := by
          simp [get_descriptor_aux, hid, haux]
        rw [hunf] at h
        simp only [Option.some.injEq, Prod.mk.injEq] at h
        obtain ⟨h1, h2, h3⟩ := h
        subst h2
        rw [occupiedIds_cons, if_neg hid0] at hfresh hnodup
        have hfresh2 : nextId n ∉ occupiedIds rest := by
          intro hx
          exact hfresh (List.mem_cons.mpr (Or.inr hx))
        have hneq : nextId n ≠ s0.id := by
          intro hx
          exact hfresh (List.mem_cons.mpr (Or.inl hx))
        obtain ⟨hs0notin, hnodup2⟩ := List.nodup_cons.mp hnodup
        obtain ⟨hmem, hnodup3⟩ := ih hfresh2 hnodup2 i2 rest2 sid2 haux
        constructor
        · intro x hx
          rw [occupiedIds_cons, if_neg hid0] at hx
          rw [occupiedIds_cons, if_neg hid0]
          rcases List.mem_cons.mp hx with hx | hx
          · exact Or.inl (List.mem_cons.mpr (Or.inl hx))
          · rcases hmem x hx with hx2 | hx2
            · exact Or.inl (List.mem_cons.mpr (Or.inr hx2))
            · exact Or.inr hx2
        · rw [occupiedIds_cons, if_neg hid0]
          refine List.nodup_cons.mpr ⟨?_, hnodup3⟩
          intro hx
          rcases hmem s0.id hx with hx2 | hx2
          · exact hs0notin hx2
          · exact hneq hx2.symm

/-- While the counter never wraps, the table invariant holds: the counter
stays in [0, 2^31), every occupied id lies in (0, slotid], and the occupied
ids are pairwise distinct. -/
theorem reachableNoWrap_inv :
    ∀ st, ReachableNoWrap st →
      0 ≤ st.slotid ∧ st.slotid < 2 ^ 31 ∧
      (∀ x ∈ occupiedIds st.slots, 0 < x ∧ x ≤ st.slotid) ∧
      (occupiedIds st.slots).Nodup := by
  intro st h
  induction h with
  | init =>
    have hinit : occupiedIds initState.slots = [] := rfl
    refine ⟨le_refl 0, by norm_num [initState], ?_, ?_⟩
    · intro x hx
      rw [hinit] at hx
      simp at hx
    · rw [hinit]
      exact List.nodup_nil
  | fopen st file maxls hr hlt ih =>
    obtain ⟨hpos, hlt2, hbound, hnodup⟩ := ih
    have hw : wrap32 (st.slotid + 1) = st.slotid + 1 := by
      unfold wrap32
      omega
    have hcond : ¬ (st.slotid + 1 = 0) := by omega
    have hnext : nextId st.slotid = st.slotid + 1 := by
      simp only [nextId, hw, INVALID_SLOTID]
      rw [if_neg hcond]
    have hne : nextId st.slotid ≠ 0 := by
      rw [hnext]
      omega
    rcases get_descriptor_aux_spec file maxls st.slotid st.slots with
      ⟨hnone, -⟩ | ⟨slots', hsome2, -⟩
    · rw [show (get_descriptor st file maxls).2 = st by
        simp [get_descriptor, hnone]]
      exact ⟨hpos, hlt2, hbound, hnodup⟩
    · rw [show (get_descriptor st file maxls).2 =
          ⟨slots', nextId st.slotid⟩ by simp [get_descriptor, hsome2]]
      have hfresh : nextId st.slotid ∉ occupiedIds st.slots := by
        intro hx
        have := (hbound _ hx).2
        rw [hnext] at this
        omega
      obtain ⟨hmem, hnodup2⟩ := get_descriptor_aux_nodup file maxls
        st.slotid hne st.slots hfresh hnodup _ _ _ hsome2
      refine ⟨by simp only; rw [hnext]; omega,
        by simp only; rw [hnext]; omega, ?_, hnodup2⟩
      intro x hx
      simp only
      rcases hmem x hx with hx2 | hx2
      · have := hbound x hx2
        rw [hnext]
        omega
      · rw [hx2, hnext]
        omega
  | fclose st closeRes d hr ih =>
    obtain ⟨hpos, hlt2, hbound, hnodup⟩ := ih
    rcases haux : fclose_aux closeRes d st.slots with ⟨r, slots2⟩
    have hrel := fclose_aux_slots closeRes d st.slots
    rw [haux] at hrel
    have hsub := occupiedIds_sublist hrel
    rw [show (utl_file_fclose closeRes st d).2 = ⟨slots2, st.slotid⟩ by
      simp [utl_file_fclose, haux]]
    exact ⟨hpos, hlt2, fun x hx => hbound x (hsub.subset hx),
      hnodup.sublist hsub⟩
  | fcloseAll st closeRes hr ih =>
    obtain ⟨hpos, hlt2, hbound, hnodup⟩ := ih
    rcases haux : fclose_all_aux closeRes st.slots with ⟨r, slots2⟩
    have hrel := fclose_all_aux_slots closeRes st.slots
    rw [haux] at hrel
    have hsub := occupiedIds_sublist hrel
    rw [show (fclose_all closeRes st).2 = ⟨slots2, st.slotid⟩ by
      simp [fclose_all, haux]]
    exact ⟨hpos, hlt2, fun x hx => hbound x (hsub.subset hx),
      hnodup.sublist hsub⟩

/-- C8 (amended): the handle-id counter never issues the reserved invalid
value 0 as a live handle id (the wraparound skip guarantees it, at every
reachable state), and an id value is unique among the currently-occupied
slots at every state reachable while the counter has not wrapped; once the
counter wraps around the int32 range with an old handle still open, that
handle's id can be issued a second time, breaking uniqueness. -/
theorem id_counter_amended :
    (∀ st, Reachable st → ∀ s ∈ st.slots, s.file.isSome = true →
      s.id ≠ INVALID_SLOTID) ∧
    (∀ st, ReachableNoWrap st → (occupiedIds st.slots).Nodup) :=
  ⟨reachable_zero_free, fun st h => (reachableNoWrap_inv st h).2.2.2⟩

/-- Witness for C8 (amended): at the initial state (reachable without any
wrap) the occupied ids are duplicate-free. -/
theorem id_counter_amended_witness :
    (occupiedIds initState.slots).Nodup :=
  id_counter_amended.2 initState ReachableNoWrap.init

end UtlFile
